import Mathlib

/-!
Verification of the video lexical extraction pipeline
(`backend/utils/word_extractor.py`).

The Python code is shallowly embedded: pure functions become Lean
functions on `String`/`List Char`/`ℚ`; the external collaborators
(caption provider, stream resolver, speech recognizer) are modelled as
an explicit environment record whose fields give the outcome of each
external call, and the orchestrator `extract_words` is a function of
that environment.  Float timestamps are modelled as rationals: every
arithmetic operation the code performs on them (`int` division of the
chunk duration by a token count, multiplication by an index, addition
of offsets) is exact on the values the claims mention.
-/

/-! ## Normalizer (`WordExtractor.clean_word`) -/

/-- `self.min_word_length = 2` in `WordExtractor.__init__`. -/
def min_word_length : Nat := 2

/-- `self.max_video_duration = 3600` in `WordExtractor.__init__`. -/
def max_video_duration : Nat := 3600

/-- The apostrophe character (code point 39). -/
def apos : Char := Char.ofNat 39

/-- ASCII lower-casing of one character, as Python `str.lower` acts on
the ASCII range (the only range reachable from the pipeline inputs the
claims concern). -/
def lowerChar (c : Char) : Char :=
  if 65 ≤ c.toNat ∧ c.toNat ≤ 90 then Char.ofNat (c.toNat + 32) else c

/-- Whitespace stripped by Python `str.strip`. -/
def isPySpace (c : Char) : Bool :=
  c.toNat = 32 || c.toNat = 9 || c.toNat = 10 || c.toNat = 13 ||
    c.toNat = 11 || c.toNat = 12

/-- One lowercase ASCII letter: the character class kept by
`re.sub(r'[^a-z]', '', word)`. -/
def isLowerAlpha (c : Char) : Bool :=
  97 ≤ c.toNat && c.toNat ≤ 122

/-- Python `str.strip`: drop leading and trailing whitespace. -/
def stripChars (l : List Char) : List Char :=
  ((l.dropWhile isPySpace).reverse.dropWhile isPySpace).reverse

/-- The `contractions` dictionary literal in `clean_word`
(apostrophes written as `\x27`). -/
def contractions : List (String × String) := [
  ("doesn\x27t", "does not"),
  ("don\x27t", "do not"),
  ("won\x27t", "will not"),
  ("can\x27t", "cannot"),
  ("isn\x27t", "is not"),
  ("ain\x27t", "is not"),
  ("aren\x27t", "are not"),
  ("wasn\x27t", "was not"),
  ("weren\x27t", "were not"),
  ("hasn\x27t", "has not"),
  ("haven\x27t", "have not"),
  ("hadn\x27t", "had not"),
  ("wouldn\x27t", "would not"),
  ("couldn\x27t", "could not"),
  ("shouldn\x27t", "should not"),
  ("mustn\x27t", "must not"),
  ("i\x27m", "i am"),
  ("you\x27re", "you are"),
  ("he\x27s", "he is"),
  ("she\x27s", "she is"),
  ("it\x27s", "it is"),
  ("we\x27re", "we are"),
  ("they\x27re", "they are"),
  ("i\x27ve", "i have"),
  ("you\x27ve", "you have"),
  ("we\x27ve", "we have"),
  ("they\x27ve", "they have"),
  ("i\x27d", "i would"),
  ("you\x27d", "you would"),
  ("he\x27d", "he would"),
  ("she\x27d", "she would"),
  ("it\x27d", "it would"),
  ("we\x27d", "we would"),
  ("they\x27d", "they would"),
  ("i\x27ll", "i will"),
  ("you\x27ll", "you will"),
  ("he\x27ll", "he will"),
  ("she\x27ll", "she will"),
  ("it\x27ll", "it will"),
  ("we\x27ll", "we will"),
  ("they\x27ll", "they will")]

/-- The `noise_words` set in `clean_word`. -/
def noise_words : List String :=
  ["uh", "um", "ah", "er", "hm", "erm", "uhm", "hmm"]

/-- Dictionary lookup (`word in contractions` / `contractions[word]`). -/
def lookupStr : List (String × String) → String → Option String
  | [], _ => none
  | (k, v) :: rest, w => if w = k then some v else lookupStr rest w

/-- `expansion.split()[0]`: first whitespace-separated word. -/
def firstWordOf (s : String) : String := (s.splitOn " ").headD ""

/-- `word.lower().strip()` (the code lower-cases first, then strips). -/
def preclean (word : String) : List Char :=
  stripChars (word.data.map lowerChar)

/-- The contraction / apostrophe handling block of `clean_word`:
a known contraction is replaced by the first word of its expansion,
otherwise the word is truncated at its first apostrophe. -/
def decontract (w : List Char) : List Char :=
  match lookupStr contractions ⟨w⟩ with
  | some expansion => (firstWordOf expansion).data
  | none => if apos ∈ w then w.takeWhile (fun c => c ≠ apos) else w

/-- `re.sub(r'[^a-z]','',word)` followed by the noise-word and
minimum-length filter of `clean_word`. -/
def postfilter (w2 : List Char) : String :=
  let cleaned := w2.filter isLowerAlpha
  if (⟨cleaned⟩ : String) ∈ noise_words ∨ cleaned.length < min_word_length
  then ""
  else ⟨cleaned⟩

/-- `WordExtractor.clean_word`: empty input is returned unchanged
(`if not word: return ""`), otherwise the stages run in source order. -/
def clean_word (word : String) : String :=
  if word = "" then ""
  else postfilter (decontract (preclean word))

/-! ## Tokenization (`re.findall(r'\b\w+\b', text.lower())`) -/

/-- A regex word character (`\w`): letter, digit or underscore. -/
def isWordChar (c : Char) : Bool :=
  (97 ≤ c.toNat && c.toNat ≤ 122) || (65 ≤ c.toNat && c.toNat ≤ 90) ||
    (48 ≤ c.toNat && c.toNat ≤ 57) || c.toNat = 95

/-- Accumulator pass splitting a character list into the maximal runs
of word characters, in order (the matches of `\b\w+\b`). -/
def tokenizeGo : List Char → List Char → List (List Char)
  | [], acc => if acc = [] then [] else [acc.reverse]
  | c :: rest, acc =>
    if isWordChar c then tokenizeGo rest (c :: acc)
    else if acc = [] then tokenizeGo rest [] else acc.reverse :: tokenizeGo rest []

/-- `re.findall(r'\b\w+\b', s.lower())`: lower-case, then list the
maximal word-character runs. -/
def tokenize (s : String) : List String :=
  (tokenizeGo (s.data.map lowerChar) []).map (fun l => (⟨l⟩ : String))

/-! ## Transcript extractor (`WordExtractor.extract_from_captions`) -/

/-- One caption cue as returned by the caption provider:
`{'text': ..., 'start': ...}`. -/
structure TranscriptEntry where
  text : String
  start : ℚ

/-- The inner loop of `extract_from_captions` over one entry: each
token of the entry text is cleaned, and kept (paired with the entry
start time) exactly when the cleaned form is nonempty. -/
def collectEntryWords (start : ℚ) : List String → List (String × ℚ)
  | [] => []
  | w :: rest =>
    if clean_word w ≠ "" then (clean_word w, start) :: collectEntryWords start rest
    else collectEntryWords start rest

/-- `extract_from_captions` over a fetched transcript: entries are
processed in transcript order, tokens in appearance order.  The two
Python lists `words` and `timestamps` are appended in lockstep, so the
stream is modelled as one list of pairs. -/
def collectCaptions : List TranscriptEntry → List (String × ℚ)
  | [] => []
  | e :: rest => collectEntryWords e.start (tokenize e.text) ++ collectCaptions rest

/-! ## Audio extractor (`WordExtractor.extract_from_audio_stream`) -/

/-- `chunk_duration = 5` seconds per chunk. -/
def chunk_duration : ℚ := 5

/-- Outcome of one iteration of the chunk loop, as decided by the
external recognizer: the recognized text, `sr.UnknownValueError`
(no speech), `sr.WaitTimeoutError`, or any other exception. -/
inductive ChunkOutcome where
  | recognized (text : String)
  | noSpeech
  | timeout
  | chunkError
deriving DecidableEq

/-- The token emission loop of one recognized chunk: token index `i`
runs over the raw tokens in chunk order, each cleaned token is kept
with timestamp `offset + i * time_per_word`, exactly as
`timestamps.append(float(offset + (i * time_per_word)))`. -/
def emitChunk (offset tpw : ℚ) : Nat → List String → List (String × ℚ)
  | _, [] => []
  | i, w :: rest =>
    if clean_word w ≠ "" then
      (clean_word w, offset + (i : ℚ) * tpw) :: emitChunk offset tpw (i + 1) rest
    else emitChunk offset tpw (i + 1) rest

/-- The `while True` chunk loop of `extract_from_audio_stream`.
An exhausted stream (`if not audio_chunk: break`) is the end of the
outcome list; `WaitTimeoutError` breaks the loop; `UnknownValueError`
and any other chunk error advance the offset by `chunk_duration` and
continue; a recognized chunk emits its tokens with evenly subdivided
timestamps (`time_per_word = chunk_duration / len(chunk_words)`) and
then advances the offset. -/
def audioLoop : List ChunkOutcome → ℚ → List (String × ℚ)
  | [], _ => []
  | ChunkOutcome.timeout :: _, _ => []
  | ChunkOutcome.noSpeech :: rest, offset => audioLoop rest (offset + chunk_duration)
  | ChunkOutcome.chunkError :: rest, offset => audioLoop rest (offset + chunk_duration)
  | ChunkOutcome.recognized text :: rest, offset =>
    (if (tokenize text).isEmpty then []
     else emitChunk offset (chunk_duration / ((tokenize text).length : ℚ)) 0 (tokenize text))
      ++ audioLoop rest (offset + chunk_duration)

/-- Errors of the pipeline.  Only `invalidURL` and `noWordsExtracted`
escape `extract_words`; the others are raised inside the audio branch
and caught there. -/
inductive ExtractError where
  | invalidURL
  | noWordsExtracted
  | ytAccessFailed
  | videoTooLong
  | noAudioStream
  | noAudioWords
deriving DecidableEq

/-- `WordExtractor.extract_from_audio_stream` body: fail when no
audio-only stream exists, run the chunk loop from offset `0.0`, fail
when it produced no words, otherwise return the word/timestamp pairs. -/
def extract_from_audio_stream (hasStream : Bool) (chunks : List ChunkOutcome) :
    Except ExtractError (List (String × ℚ)) :=
  if !hasStream then Except.error ExtractError.noAudioStream
  else
    let pairs := audioLoop chunks 0
    if pairs.isEmpty then Except.error ExtractError.noAudioWords
    else Except.ok pairs

/-! ## Orchestrator (`WordExtractor.extract_words`) -/

/-- The environment of one `extract_words` invocation: the outcome of
each external call the code can make.  `urlVideoId` is the value of
`get_youtube_video_id(video_url)` (regex URL resolution); `transcript`
is `none` when `YouTubeTranscriptApi.get_transcript` (or anything in
`extract_from_captions`) raises; `ytLength` is `none` when every
pytube URL format fails, otherwise the resolved `yt.length`;
`hasAudioStream` and `chunks` drive `extract_from_audio_stream`. -/
structure Env where
  urlVideoId : Option String
  transcript : Option (List TranscriptEntry)
  ytLength : Option Nat
  hasAudioStream : Bool
  chunks : List ChunkOutcome

/-- External calls observable in one invocation: the caption fetch
(`extract_from_captions`) and the audio streaming call
(`extract_from_audio_stream`). -/
inductive Event where
  | captionCall
  | audioStreamCall
deriving DecidableEq

/-- The `metrics` dictionary of the result. -/
structure Metrics where
  total_words : Nat
  unique_words : Nat
  caption_success : Bool
  audio_success : Bool
deriving DecidableEq

/-- The dictionary returned by `extract_words`. -/
structure ExtractionResult where
  words : List String
  timestamps : List ℚ
  metrics : Metrics
deriving DecidableEq

/-- The caption word/timestamp pairs collected by the caption attempt
of `extract_words` (empty when the caption fetch raised). -/
def captionPairsOf (env : Env) : List (String × ℚ) :=
  match env.transcript with
  | none => []
  | some t => collectCaptions t

/-- `caption_success`: set exactly when the caption attempt returned
without raising and its word list was nonempty
(`if caption_result['words']:`). -/
def caption_successOf (env : Env) : Bool :=
  !(captionPairsOf env).isEmpty

/-- The guard of the audio branch:
`if not caption_success or len(words) == 0:` — at this point `words`
holds exactly the caption pairs. -/
def audioAttemptedOf (env : Env) : Bool :=
  !(caption_successOf env) || (captionPairsOf env).isEmpty

/-- The audio branch body up to and including the call of
`extract_from_audio_stream`: pytube access failure raises, then
`if yt.length > self.max_video_duration` raises `VideoTooLong`, and
only past that check is the audio stream pulled and recognized. -/
def audioResultOf (env : Env) : Except ExtractError (List (String × ℚ)) :=
  match env.ytLength with
  | none => Except.error ExtractError.ytAccessFailed
  | some len =>
    if len > max_video_duration then Except.error ExtractError.videoTooLong
    else extract_from_audio_stream env.hasAudioStream env.chunks

/-- Words contributed by the audio branch: nothing unless the branch
was entered, and nothing when anything in it raised (the surrounding
`except` catches and logs). -/
def audioPairsOf (env : Env) : List (String × ℚ) :=
  if audioAttemptedOf env then
    match audioResultOf env with
    | Except.error _ => []
    | Except.ok pairs => pairs
  else []

/-- `audio_success`: the branch was entered and
`if audio_result['words']:` held. -/
def audio_successOf (env : Env) : Bool :=
  audioAttemptedOf env &&
    (match audioResultOf env with
     | Except.error _ => false
     | Except.ok pairs => !pairs.isEmpty)

/-- `extract_from_audio_stream` is actually invoked (the audio stream
is pulled) exactly when the audio branch was entered, pytube access
succeeded, and the duration check passed. -/
def audioCallMade (env : Env) : Bool :=
  audioAttemptedOf env &&
    (match env.ytLength with
     | none => false
     | some len => decide (len ≤ max_video_duration))

/-- All raw (already individually cleaned) word/timestamp pairs
accumulated in `words`/`timestamps` before deduplication: caption
words first, audio words appended after. -/
def rawPairsOf (env : Env) : List (String × ℚ) :=
  captionPairsOf env ++ audioPairsOf env

/-- The external calls made by one invocation with a valid URL: the
caption fetch always happens first, the audio streaming call happens
exactly when `audioCallMade`. -/
def traceOf (env : Env) : List Event :=
  Event.captionCall :: (if audioCallMade env then [Event.audioStreamCall] else [])

/-- The deduplication loop of `extract_words`: scan the pairs in
collection order, clean each word, and append word and timestamp to
the two result lists when the cleaned word is nonempty and unseen
(`if cleaned_word and cleaned_word not in seen:`). -/
def dedup : List (String × ℚ) → List String → List String × List ℚ
  | [], _ => ([], [])
  | (w, t) :: rest, seen =>
    if clean_word w ≠ "" ∧ clean_word w ∉ seen then
      (clean_word w :: (dedup rest (clean_word w :: seen)).1,
       t :: (dedup rest (clean_word w :: seen)).2)
    else dedup rest seen

/-- `WordExtractor.extract_words`: URL validation, the caption
attempt, the conditional audio branch, the empty check raising
`NoWordsExtracted`, deduplication, and result assembly.  The second
component is the trace of external calls made. -/
def extract_words (env : Env) : Except ExtractError ExtractionResult × List Event :=
  match env.urlVideoId with
  | none => (Except.error ExtractError.invalidURL, [])
  | some _ =>
    if rawPairsOf env = [] then
      (Except.error ExtractError.noWordsExtracted, traceOf env)
    else
      (Except.ok
        { words := (dedup (rawPairsOf env) []).1
          timestamps := (dedup (rawPairsOf env) []).2
          metrics :=
            { total_words := (rawPairsOf env).length
              unique_words := (dedup (rawPairsOf env) []).1.length
              caption_success := caption_successOf env
              audio_success := audio_successOf env } },
       traceOf env)

/-! ## Specification-side definitions used for refinement statements -/

/-- Normalization pass of the spec pipeline: clean every raw word,
drop the pairs whose cleaned form is empty. -/
def normPairs : List (String × ℚ) → List (String × ℚ)
  | [] => []
  | (w, t) :: rest =>
    if clean_word w = "" then normPairs rest
    else (clean_word w, t) :: normPairs rest

/-- Remove every pair whose word equals `w`. -/
def removeWord (w : String) : List (String × ℚ) → List (String × ℚ)
  | [] => []
  | q :: rest => if q.1 = w then removeWord w rest else q :: removeWord w rest

/-- Remove every pair whose word is in `seen`. -/
def removeSeen (seen : List String) : List (String × ℚ) → List (String × ℚ)
  | [] => []
  | q :: rest => if q.1 ∈ seen then removeSeen seen rest else q :: removeSeen seen rest

/-- Length bound needed for the termination of
`spec_first_occurrence`. -/
theorem removeWord_length_le (w : String) :
    ∀ l : List (String × ℚ), (removeWord w l).length ≤ l.length := by
  intro l
  induction l with
  | nil => simp [removeWord]
  | cons q rest ih =>
    by_cases hq : q.1 = w
    · simp only [removeWord, if_pos hq]
      exact Nat.le_succ_of_le ih
    · simp only [removeWord, if_neg hq, List.length_cons]
      exact Nat.succ_le_succ ih

/-- First-occurrence deduplication as the spec words it: keep the
first occurrence of each distinct word with its timestamp, discard
every later duplicate together with its timestamp. -/
def spec_first_occurrence : List (String × ℚ) → List (String × ℚ)
  | [] => []
  | p :: rest => p :: spec_first_occurrence (removeWord p.1 rest)
termination_by l => l.length
decreasing_by
  simp only [List.length_cons]
  exact Nat.lt_succ_of_le (removeWord_length_le _ _)

/-- Tokens paired with their 0-based index in chunk order. -/
def indexedFrom (i : Nat) : List String → List (Nat × String)
  | [] => []
  | w :: rest => (i, w) :: indexedFrom (i + 1) rest

/-- The timestamp synthesis formula as the spec words it: raw token
`i` (0-based, chunk order) gets `offset + i * tpw`, and a token is
kept exactly when its cleaned form is nonempty. -/
def emitIndexed (offset tpw : ℚ) : List (Nat × String) → List (String × ℚ)
  | [] => []
  | (i, w) :: rest =>
    if clean_word w ≠ "" then
      (clean_word w, offset + (i : ℚ) * tpw) :: emitIndexed offset tpw rest
    else emitIndexed offset tpw rest

/-- Spec formula `timestamp(i) = chunk_offset + i * (chunk_duration / n)`
applied to a token list. -/
def synthTimestamps (offset tpw : ℚ) (ws : List String) : List (String × ℚ) :=
  emitIndexed offset tpw (indexedFrom 0 ws)

/-! ## Concrete inputs used by counterexamples and witnesses -/

/-- First projection of an extraction outcome, usable in closed
decidable statements. -/
def isOkResult : Except ExtractError ExtractionResult → Bool
  | Except.ok _ => true
  | Except.error _ => false

/-- `uniqueWordCount` of a produced result, `0` on error. -/
def uniqueCountOf (env : Env) : Nat :=
  match (extract_words env).1 with
  | Except.ok r => r.metrics.unique_words
  | Except.error _ => 0

/-- The `i`-th of 676 distinct three-letter lowercase words. -/
def w3 (i : Nat) : String :=
  ⟨[Char.ofNat 97, Char.ofNat (97 + i / 26), Char.ofNat (97 + i % 26)]⟩

/-- Captions succeed with 101 distinct clean words; audio irrelevant. -/
def env101 : Env :=
  ⟨some "abcdefghijk", some ((List.range 101).map (fun i => ⟨w3 i, 0⟩)), some 10, false, []⟩

/-- Captions succeed with 3 raw words (fewer than 5); audio is
available and would recognize words if it were invoked. -/
def envC1 : Env :=
  ⟨some "abcdefghijk", some [⟨"hello world again", 0⟩], some 10, true,
   [ChunkOutcome.recognized "more words here"]⟩

/-- Caption fetch raises; the resolved video length 4000 s exceeds
`max_video_duration = 3600`. -/
def envC3 : Env :=
  ⟨some "abcdefghijk", none, some 4000, true, [ChunkOutcome.recognized "some words"]⟩

/-- Both strategies yield zero words: the transcript has no entries
and no audio stream exists. -/
def envE : Env := ⟨some "abcdefghijk", some [], some 10, false, []⟩

/-- Caption fetch raises, so the audio branch runs: the video is
accessible, short enough, and one chunk is recognized. -/
def envA : Env :=
  ⟨some "abcdefghijk", none, some 10, true, [ChunkOutcome.recognized "hello there"]⟩

/-- Captions succeed with two clean words. -/
def envW : Env := ⟨some "abcdefghijk", some [⟨"good morning", 0⟩], some 10, false, []⟩

/-- The result `extract_words envW` produces. -/
def resW : ExtractionResult :=
  { words := ["good", "morning"]
    timestamps := [0, 0]
    metrics :=
      { total_words := 2, unique_words := 2
        caption_success := true, audio_success := false } }

/-- One recognized 5-second chunk containing 5 words. -/
def t5 : String := "alpha bravo charlie delta echo"

/-! ## Lemmas about the normalizer -/

theorem map_id_of_fix {f : Char → Char} {l : List Char} (h : ∀ c ∈ l, f c = c) :
    l.map f = l := by
  induction l with
  | nil => rfl
  | cons a rest ih =>
    simp only [List.map_cons]
    rw [h a (List.mem_cons_self a rest), ih (fun c hc => h c (List.mem_cons_of_mem a hc))]

theorem lowerChar_fix {c : Char} (h : isLowerAlpha c = true) : lowerChar c = c := by
  unfold isLowerAlpha at h
  simp only [Bool.and_eq_true, decide_eq_true_eq] at h
  unfold lowerChar
  rw [if_neg]
  rintro ⟨-, h2⟩
  omega

theorem not_space_of_lower {c : Char} (h : isLowerAlpha c = true) : isPySpace c = false := by
  unfold isLowerAlpha at h
  simp only [Bool.and_eq_true, decide_eq_true_eq] at h
  unfold isPySpace
  simp only [Bool.or_eq_false_iff, decide_eq_false_iff_not]
  omega

theorem dropWhile_id {p : Char → Bool} {l : List Char} (h : ∀ c ∈ l, p c = false) :
    l.dropWhile p = l := by
  cases l with
  | nil => rfl
  | cons a rest =>
    rw [List.dropWhile_cons, h a (List.mem_cons_self a rest)]
    simp

theorem stripChars_id {l : List Char} (h : ∀ c ∈ l, isPySpace c = false) :
    stripChars l = l := by
  unfold stripChars
  rw [dropWhile_id h,
    dropWhile_id (fun c hc => h c (List.mem_reverse.mp hc)),
    List.reverse_reverse]

theorem lookup_none {l : List (String × String)} {k : String} (h : ∀ p ∈ l, k ≠ p.1) :
    lookupStr l k = none := by
  induction l with
  | nil => rfl
  | cons p rest ih =>
    obtain ⟨a, b⟩ := p
    unfold lookupStr
    rw [if_neg (h (a, b) (List.mem_cons_self _ _))]
    exact ih (fun q hq => h q (List.mem_cons_of_mem _ hq))

theorem contraction_keys_apos : ∀ p ∈ contractions, apos ∈ p.1.data := by decide

theorem lookup_contractions_none {w : String} (h : ∀ c ∈ w.data, isLowerAlpha c = true) :
    lookupStr contractions w = none := by
  apply lookup_none
  intro p hp he
  have hap : apos ∈ w.data := by rw [he]; exact contraction_keys_apos p hp
  exact absurd (h apos hap) (by decide)

theorem filter_id_of {p : Char → Bool} {l : List Char} (h : ∀ c ∈ l, p c = true) :
    l.filter p = l := by
  induction l with
  | nil => rfl
  | cons a rest ih =>
    rw [List.filter_cons, if_pos (h a (List.mem_cons_self a rest)),
      ih (fun c hc => h c (List.mem_cons_of_mem a hc))]

theorem clean_word_good (x : String) :
    clean_word x = "" ∨
      ((∀ c ∈ (clean_word x).data, isLowerAlpha c = true) ∧
        clean_word x ∉ noise_words ∧ min_word_length ≤ (clean_word x).data.length) := by
  unfold clean_word
  by_cases hx : x = ""
  · simp [hx]
  · rw [if_neg hx]
    unfold postfilter
    by_cases hcond : (⟨(decontract (preclean x)).filter isLowerAlpha⟩ : String) ∈ noise_words ∨
        ((decontract (preclean x)).filter isLowerAlpha).length < min_word_length
    · rw [if_pos hcond]
      left
      rfl
    · rw [if_neg hcond]
      right
      push_neg at hcond
      obtain ⟨h1, h2⟩ := hcond
      exact ⟨fun c hc => (List.mem_filter.mp hc).2, h1, h2⟩

theorem clean_word_fixed {w : String}
    (h1 : ∀ c ∈ w.data, isLowerAlpha c = true)
    (h2 : w ∉ noise_words) (h3 : min_word_length ≤ w.data.length) :
    clean_word w = w := by
  have hne : w ≠ "" := by
    intro he
    rw [he] at h3
    exact absurd h3 (by decide)
  unfold clean_word
  rw [if_neg hne]
  have hpre : preclean w = w.data := by
    unfold preclean
    rw [map_id_of_fix (fun c hc => lowerChar_fix (h1 c hc))]
    exact stripChars_id (fun c hc => not_space_of_lower (h1 c hc))
  rw [hpre]
  have happ : apos ∉ w.data := by
    intro hmem
    exact absurd (h1 apos hmem) (by decide)
  have hdec : decontract w.data = w.data := by
    unfold decontract
    have hlk : lookupStr contractions ⟨w.data⟩ = none := lookup_contractions_none h1
    rw [hlk]
    exact if_neg happ
  rw [hdec]
  unfold postfilter
  rw [filter_id_of h1]
  rw [if_neg]
  rintro (hn | hl)
  · exact h2 hn
  · omega

/-- C8: the normalizer is idempotent — for every input string `x`,
`clean_word (clean_word x) = clean_word x`. -/
theorem clean_word_idempotent (x : String) :
    clean_word (clean_word x) = clean_word x := by
  rcases clean_word_good x with h | ⟨h1, h2, h3⟩
  · rw [h]
    rfl
  · exact clean_word_fixed h1 h2 h3

/-! ## Lemmas about deduplication -/

theorem dedup_length : ∀ (pairs : List (String × ℚ)) (seen : List String),
    (dedup pairs seen).1.length = (dedup pairs seen).2.length := by
  intro pairs
  induction pairs with
  | nil => intro seen; rfl
  | cons p rest ih =>
    intro seen
    obtain ⟨w, t⟩ := p
    unfold dedup
    by_cases hc : clean_word w ≠ "" ∧ clean_word w ∉ seen
    · rw [if_pos hc]
      simp only [List.length_cons]
      rw [ih (clean_word w :: seen)]
    · rw [if_neg hc]
      exact ih seen

theorem removeSeen_nil : ∀ l : List (String × ℚ), removeSeen [] l = l := by
  intro l
  induction l with
  | nil => rfl
  | cons q rest ih =>
    unfold removeSeen
    rw [if_neg (List.not_mem_nil q.1), ih]

theorem removeWord_removeSeen (cw : String) (seen : List String) :
    ∀ l : List (String × ℚ), removeWord cw (removeSeen seen l) = removeSeen (cw :: seen) l := by
  intro l
  induction l with
  | nil => rfl
  | cons q rest ih =>
    unfold removeSeen
    by_cases hq : q.1 ∈ seen
    · rw [if_pos hq, if_pos (List.mem_cons_of_mem cw hq), ih]
    · rw [if_neg hq]
      by_cases hqw : q.1 = cw
      · rw [if_pos (by rw [hqw]; exact List.mem_cons_self cw seen)]
        unfold removeWord
        rw [if_pos hqw, ih]
      · rw [if_neg (by
          intro hmem
          rcases List.mem_cons.mp hmem with h | h
          · exact hqw h
          · exact hq h)]
        unfold removeWord
        rw [if_neg hqw, ih]

theorem dedup_eq_spec : ∀ (pairs : List (String × ℚ)) (seen : List String),
    dedup pairs seen =
      ((spec_first_occurrence (removeSeen seen (normPairs pairs))).map Prod.fst,
       (spec_first_occurrence (removeSeen seen (normPairs pairs))).map Prod.snd) := by
  intro pairs
  induction pairs with
  | nil =>
    intro seen
    simp [dedup, normPairs, removeSeen, spec_first_occurrence]
  | cons p rest ih =>
    intro seen
    obtain ⟨w, t⟩ := p
    by_cases h1 : clean_word w = ""
    · unfold dedup normPairs
      rw [if_pos h1, if_neg (by simp [h1])]
      exact ih seen
    · by_cases h2 : clean_word w ∈ seen
      · unfold dedup normPairs
        rw [if_neg h1, if_neg (by
          rintro ⟨-, hns⟩
          exact hns h2)]
        unfold removeSeen
        rw [if_pos h2]
        exact ih seen
      · unfold dedup normPairs
        rw [if_neg h1, if_pos ⟨h1, h2⟩]
        unfold removeSeen
        rw [if_neg h2]
        rw [spec_first_occurrence]
        simp only [List.map_cons]
        rw [removeWord_removeSeen (clean_word w) seen (normPairs rest)]
        rw [ih (clean_word w :: seen)]

/-! ## Lemmas about the orchestrator -/

theorem isEmpty_false_of_ne {α : Type} {l : List α} (h : l ≠ []) : l.isEmpty = false := by
  cases l with
  | nil => exact absurd rfl h
  | cons a rest => rfl

theorem emitChunk_eq (offset tpw : ℚ) :
    ∀ (ws : List String) (i : Nat),
      emitChunk offset tpw i ws = emitIndexed offset tpw (indexedFrom i ws) := by
  intro ws
  induction ws with
  | nil => intro i; rfl
  | cons w rest ih =>
    intro i
    unfold emitChunk indexedFrom emitIndexed
    by_cases hc : clean_word w ≠ ""
    · rw [if_pos hc, if_pos hc, ih (i + 1)]
    · rw [if_neg hc, if_neg hc, ih (i + 1)]

theorem extract_words_ok {env : Env} {r : ExtractionResult}
    (h : (extract_words env).1 = Except.ok r) :
    rawPairsOf env ≠ [] ∧
    r.words = (dedup (rawPairsOf env) []).1 ∧
    r.timestamps = (dedup (rawPairsOf env) []).2 ∧
    r.metrics.unique_words = (dedup (rawPairsOf env) []).1.length ∧
    r.metrics.caption_success = caption_successOf env ∧
    r.metrics.audio_success = audio_successOf env := by
  unfold extract_words at h
  cases henv : env.urlVideoId with
  | none => rw [henv] at h; simp at h
  | some vid =>
    rw [henv] at h
    by_cases hp : rawPairsOf env = []
    · rw [if_pos hp] at h
      simp at h
    · rw [if_neg hp] at h
      simp only [Except.ok.injEq] at h
      subst h
      exact ⟨hp, rfl, rfl, rfl, rfl, rfl⟩

theorem caption_true_no_audio {env : Env} (h : caption_successOf env = true) :
    audioAttemptedOf env = false ∧ audio_successOf env = false ∧
      audioCallMade env = false := by
  have hemp : (captionPairsOf env).isEmpty = false := by
    unfold caption_successOf at h
    cases hx : (captionPairsOf env).isEmpty with
    | false => rfl
    | true => rw [hx] at h; exact absurd h (by decide)
  refine ⟨?_, ?_, ?_⟩ <;>
    simp [audioAttemptedOf, audio_successOf, audioCallMade, caption_successOf, hemp]

theorem trace_no_audio {env : Env} (h : audioCallMade env = false) :
    Event.audioStreamCall ∉ (extract_words env).2 := by
  unfold extract_words
  cases henv : env.urlVideoId with
  | none => simp
  | some vid =>
    by_cases hp : rawPairsOf env = [] <;> simp [hp, traceOf, h]

theorem extract_words_snd {env : Env} {vid : String} (h : env.urlVideoId = some vid) :
    (extract_words env).2 = traceOf env := by
  unfold extract_words
  rw [h]
  by_cases hp : rawPairsOf env = [] <;> simp [hp]

/-! ## Claim theorems -/

/-- C1 (amended): the audio strategy is attempted exactly when the
caption attempt contributed zero raw words (caption extraction failed
or returned an empty list), and the audio streaming call appears in
the trace exactly when that branch is entered and survives the access
and duration checks; whenever captions succeed with at least one raw
word — in particular with 5 or more — the audio extractor is never
invoked and `audio_success` stays false.  The decision is made once,
before any audio runs. -/
theorem audio_only_when_captions_empty (env : Env) (vid : String)
    (h0 : env.urlVideoId = some vid) :
    (audioAttemptedOf env = true ↔ captionPairsOf env = []) ∧
    (Event.audioStreamCall ∈ (extract_words env).2 ↔ audioCallMade env = true) ∧
    (captionPairsOf env ≠ [] → audio_successOf env = false ∧
      Event.audioStreamCall ∉ (extract_words env).2) := by
  have hiff : audioAttemptedOf env = true ↔ captionPairsOf env = [] := by
    constructor
    · intro hatt
      by_contra hne
      simp [audioAttemptedOf, caption_successOf, isEmpty_false_of_ne hne] at hatt
    · intro hemp
      simp [audioAttemptedOf, caption_successOf, hemp]
  have htr : (extract_words env).2 = traceOf env := extract_words_snd h0
  have hmem : Event.audioStreamCall ∈ (extract_words env).2 ↔ audioCallMade env = true := by
    rw [htr]
    unfold traceOf
    cases hc : audioCallMade env <;> simp [hc]
  refine ⟨hiff, hmem, ?_⟩
  intro hne
  have hatt : audioAttemptedOf env = false := by
    cases hx : audioAttemptedOf env with
    | false => rfl
    | true => exact absurd (hiff.mp hx) hne
  have hcall : audioCallMade env = false := by
    unfold audioCallMade
    rw [hatt]
    rfl
  constructor
  · unfold audio_successOf
    rw [hatt]
    rfl
  · rw [htr]
    unfold traceOf
    rw [hcall]
    simp

/-- C1 counterexample: captions succeed with 3 raw words — fewer than
the alleged low-confidence threshold of 5 — yet the audio strategy is
not attempted, refuting the claimed trigger condition. -/
theorem audio_threshold_counterexample :
    caption_successOf envC1 = true ∧ (captionPairsOf envC1).length = 3 ∧
      (captionPairsOf envC1).length < 5 ∧ audioAttemptedOf envC1 = false ∧
      Event.audioStreamCall ∉ (extract_words envC1).2 := by decide

/-- Witness for the amended C1 theorem at two concrete environments:
in `envA` captions yield zero words, the branch is entered and the
audio streaming call appears in the trace; in `envW` captions yield
words and the branch is never entered. -/
theorem audio_only_when_captions_empty_witness :
    (envA.urlVideoId = some "abcdefghijk" ∧ captionPairsOf envA = [] ∧
      audioCallMade envA = true ∧
      (Event.audioStreamCall ∈ (extract_words envA).2 ↔ audioCallMade envA = true)) ∧
    (envW.urlVideoId = some "abcdefghijk" ∧ captionPairsOf envW ≠ [] ∧
      (captionPairsOf envW ≠ [] → audio_successOf envW = false ∧
        Event.audioStreamCall ∉ (extract_words envW).2)) :=
  ⟨⟨rfl, rfl, by decide,
    (audio_only_when_captions_empty envA "abcdefghijk" rfl).2.1⟩,
   ⟨rfl, by decide,
    (audio_only_when_captions_empty envW "abcdefghijk" rfl).2.2⟩⟩

/-- C2 (amended): no truncation is applied to the deduplicated
sequence — every produced result retains all distinct cleaned words in
first-occurrence order, and `uniqueWordCount` equals the number of
distinct cleaned words among the raw pairs, with no `max_words`
bound. -/
theorem no_word_cap (env : Env) (r : ExtractionResult)
    (h : (extract_words env).1 = Except.ok r) :
    r.words = (spec_first_occurrence (normPairs (rawPairsOf env))).map Prod.fst ∧
    r.metrics.unique_words = (spec_first_occurrence (normPairs (rawPairsOf env))).length := by
  obtain ⟨-, hw, -, hu, -, -⟩ := extract_words_ok h
  constructor
  · rw [hw, dedup_eq_spec, removeSeen_nil]
  · rw [hu, dedup_eq_spec, removeSeen_nil, List.length_map]

set_option maxRecDepth 20000

/-- C2 counterexample: an extraction whose captions contain 101
distinct clean words produces a result with `uniqueWordCount = 101`,
exceeding the alleged cap of 100. -/
theorem no_word_cap_counterexample :
    isOkResult (extract_words env101).1 = true ∧ uniqueCountOf env101 = 101 ∧
      100 < uniqueCountOf env101 :=
  ⟨rfl, rfl, by rw [show uniqueCountOf env101 = 101 from rfl]; decide⟩

/-- Witness for the amended C2 theorem at a concrete environment. -/
theorem no_word_cap_witness :
    (extract_words envW).1 = Except.ok resW ∧
      (resW.words = (spec_first_occurrence (normPairs (rawPairsOf envW))).map Prod.fst ∧
        resW.metrics.unique_words =
          (spec_first_occurrence (normPairs (rawPairsOf envW))).length) :=
  ⟨rfl, no_word_cap envW resW rfl⟩

/-- C3 (amended): when the resolved duration exceeds
`max_video_duration`, the audio streaming call is never made — inside
the audio branch the duration check precedes
`extract_from_audio_stream` — and the raised error is caught there, so
`audio_success` is false; caption extraction, however, has already
been attempted before this check. -/
theorem duration_gate_blocks_audio (env : Env) (len : Nat)
    (h1 : env.ytLength = some len) (h2 : max_video_duration < len) :
    Event.audioStreamCall ∉ (extract_words env).2 ∧ audio_successOf env = false := by
  have hle : ¬ len ≤ max_video_duration := Nat.not_le.mpr h2
  have hcall : audioCallMade env = false := by
    unfold audioCallMade
    rw [h1]
    simp [hle]
  have hres : audioResultOf env = Except.error ExtractError.videoTooLong := by
    unfold audioResultOf
    rw [h1]
    show (if len > max_video_duration then Except.error ExtractError.videoTooLong
      else extract_from_audio_stream env.hasAudioStream env.chunks) =
        Except.error ExtractError.videoTooLong
    exact if_pos h2
  refine ⟨trace_no_audio hcall, ?_⟩
  unfold audio_successOf
  rw [hres]
  simp

/-- C3 counterexample: the video is too long (4000 s > 3600 s) and the
caption fetch fails, yet the invocation makes the caption call first
and surfaces `NoWordsExtracted` rather than raising `VideoTooLong` to
the caller. -/
theorem duration_gate_counterexample :
    max_video_duration < 4000 ∧
      extract_words envC3 =
        (Except.error ExtractError.noWordsExtracted, [Event.captionCall]) :=
  ⟨by decide, rfl⟩

/-- Witness for the amended C3 theorem at a concrete environment. -/
theorem duration_gate_witness :
    envC3.ytLength = some 4000 ∧ max_video_duration < 4000 ∧
      (Event.audioStreamCall ∉ (extract_words envC3).2 ∧
        audio_successOf envC3 = false) :=
  ⟨rfl, by decide, duration_gate_blocks_audio envC3 4000 rfl (by decide)⟩

/-- C4 (amended): a timed-out chunk ends the chunk loop immediately —
no tokens are emitted for it, the offset is not advanced, and no later
chunk is processed — whereas a no-speech chunk or any other per-chunk
error emits no tokens, advances the offset by exactly
`chunk_duration`, and continues with the next chunk. -/
theorem timeout_breaks_loop (rest : List ChunkOutcome) (offset : ℚ) :
    audioLoop (ChunkOutcome.timeout :: rest) offset = [] ∧
    audioLoop (ChunkOutcome.noSpeech :: rest) offset =
      audioLoop rest (offset + chunk_duration) ∧
    audioLoop (ChunkOutcome.chunkError :: rest) offset =
      audioLoop rest (offset + chunk_duration) :=
  ⟨rfl, rfl, rfl⟩

/-- C4 counterexample: a timeout on the first chunk discards the
recognizable second chunk entirely, while a no-speech failure on the
first chunk lets the second chunk be processed — the two failure kinds
are not handled identically. -/
theorem timeout_counterexample :
    audioLoop [ChunkOutcome.timeout, ChunkOutcome.recognized "hello there"] 0 = [] ∧
    audioLoop [ChunkOutcome.noSpeech, ChunkOutcome.recognized "hello there"] 0 =
      [("hello", 5), ("there", 15 / 2)] :=
  ⟨rfl, by with_unfolding_all rfl⟩

/-- C5: for every successfully recognized chunk whose tokenized text
is nonempty (`n > 0` tokens), the emitted pairs are exactly the
cleaned tokens with synthesized timestamps
`chunk_offset + i * (chunk_duration / n)` for raw token index `i` in
chunk order, followed by the loop on the remaining chunks at offset
`chunk_offset + chunk_duration`. -/
theorem chunk_timestamp_formula (text : String) (rest : List ChunkOutcome) (offset : ℚ)
    (h : tokenize text ≠ []) :
    audioLoop (ChunkOutcome.recognized text :: rest) offset =
      synthTimestamps offset (chunk_duration / ((tokenize text).length : ℚ)) (tokenize text)
        ++ audioLoop rest (offset + chunk_duration) := by
  rw [show audioLoop (ChunkOutcome.recognized text :: rest) offset =
      (if (tokenize text).isEmpty then []
       else emitChunk offset (chunk_duration / ((tokenize text).length : ℚ)) 0 (tokenize text))
        ++ audioLoop rest (offset + chunk_duration) from rfl]
  rw [if_neg (by rw [isEmpty_false_of_ne h]; exact Bool.false_ne_true)]
  unfold synthTimestamps
  rw [emitChunk_eq]

/-- Witness for C5: one recognized 5-second chunk containing 5 words
yields the timestamps 0, 1, 2, 3, 4. -/
theorem chunk_timestamp_formula_witness :
    tokenize t5 ≠ [] ∧
    audioLoop [ChunkOutcome.recognized t5] 0 =
      synthTimestamps 0 (chunk_duration / ((tokenize t5).length : ℚ)) (tokenize t5)
        ++ audioLoop [] (0 + chunk_duration) ∧
    (audioLoop [ChunkOutcome.recognized t5] 0).map Prod.snd = [0, 1, 2, 3, 4] :=
  ⟨by decide, chunk_timestamp_formula t5 [] 0 (by decide), by with_unfolding_all rfl⟩

/-- C6: the deduplication loop keeps, for each distinct cleaned word,
only its first occurrence together with that occurrence's timestamp,
scanning the pairs in collection order; in particular raw words
go, go, eat yield output go, eat with first-occurrence timestamps. -/
theorem dedup_keeps_first_occurrence (pairs : List (String × ℚ)) :
    dedup pairs [] =
      ((spec_first_occurrence (normPairs pairs)).map Prod.fst,
       (spec_first_occurrence (normPairs pairs)).map Prod.snd) ∧
    dedup [("go", (0 : ℚ)), ("go", 1), ("eat", 2)] [] = (["go", "eat"], [0, 2]) :=
  ⟨by rw [dedup_eq_spec, removeSeen_nil], by with_unfolding_all rfl⟩

/-- C7: with a valid URL, `extract_words` fails with the
`NoWordsExtracted` error exactly when both strategies together
collected zero raw words, and every invocation yields exactly one of a
complete result or a single error, never both. -/
theorem no_words_error_iff_empty (env : Env) (vid : String)
    (h : env.urlVideoId = some vid) :
    ((extract_words env).1 = Except.error ExtractError.noWordsExtracted ↔
        rawPairsOf env = []) ∧
    ∀ (r : ExtractionResult) (e : ExtractError),
      ¬((extract_words env).1 = Except.ok r ∧ (extract_words env).1 = Except.error e) := by
  unfold extract_words
  rw [h]
  by_cases hp : rawPairsOf env = [] <;> simp [hp]

/-- Witness for C7 at a concrete environment where both strategies
yield nothing. -/
theorem no_words_error_witness :
    envE.urlVideoId = some "abcdefghijk" ∧
      ((extract_words envE).1 = Except.error ExtractError.noWordsExtracted ↔
        rawPairsOf envE = []) :=
  ⟨rfl, (no_words_error_iff_empty envE "abcdefghijk" rfl).1⟩

/-- C9: every produced `ExtractionResult` has words and timestamps
lists of identical length. -/
theorem alignment_invariant (env : Env) (r : ExtractionResult)
    (h : (extract_words env).1 = Except.ok r) :
    r.words.length = r.timestamps.length := by
  obtain ⟨-, hw, ht, -, -, -⟩ := extract_words_ok h
  rw [hw, ht]
  exact dedup_length (rawPairsOf env) []

/-- Witness for C9 at a concrete environment. -/
theorem alignment_invariant_witness :
    (extract_words envW).1 = Except.ok resW ∧
      resW.words.length = resW.timestamps.length :=
  ⟨rfl, alignment_invariant envW resW rfl⟩

/-- C10: in every produced result the `caption_success` and
`audio_success` flags are never both true: the audio branch only runs
when captions contributed zero words. -/
theorem success_flags_exclusive (env : Env) (r : ExtractionResult)
    (h : (extract_words env).1 = Except.ok r) :
    ¬(r.metrics.caption_success = true ∧ r.metrics.audio_success = true) := by
  obtain ⟨-, -, -, -, hc, ha⟩ := extract_words_ok h
  rintro ⟨h1, h2⟩
  rw [hc] at h1
  rw [ha] at h2
  obtain ⟨-, hfalse, -⟩ := caption_true_no_audio h1
  rw [hfalse] at h2
  exact absurd h2 (by decide)

/-- Witness for C10 at a concrete environment. -/
theorem success_flags_exclusive_witness :
    (extract_words envW).1 = Except.ok resW ∧
      ¬(resW.metrics.caption_success = true ∧ resW.metrics.audio_success = true) :=
  ⟨rfl, success_flags_exclusive envW resW rfl⟩
